import Mathlib

/-!
Verification development for the image-quality analysis engine of the
PIC_Editor repository (the `analysis/` package plus `utils.py`).

Rasters are embedded as lists of rows.  An RGB raster is a
`List (List RGBPix)` with an (r, g, b) triple of 8-bit channel values per
pixel; a grayscale raster is a `List (List ℕ)`.  numpy float32/float64
arithmetic is embedded as exact arithmetic over `ℚ` (where the source
computes only field operations) and over `ℝ` (where `sqrt`/`log` appear).
`+infinity` results (PSNR/SNR of degenerate inputs) are embedded in `EReal`.
-/

/-- An RGB pixel: (red, green, blue) channel values. -/
abbrev RGBPix := ℕ × ℕ × ℕ

/-- An RGB raster: a list of rows of pixels. -/
abbrev RGBImg := List (List RGBPix)

/-- A grayscale raster: a list of rows of 8-bit intensities. -/
abbrev GrayImg := List (List ℕ)

/-- Number of rows of a list-of-lists array (numpy `arr.shape[0]`, PIL `height`). -/
def nrows (m : List (List α)) : ℕ := m.length

/-- Number of columns of a list-of-lists array (numpy `arr.shape[1]`, PIL `width`). -/
def ncols (m : List (List α)) : ℕ := (m.headD []).length

/-- PIL `img.size` = (width, height). -/
def imgSize (m : List (List α)) : ℕ × ℕ := (ncols m, nrows m)

/-- Model of PIL `img.convert('L')` on one pixel: the ITU-R 601-2 luma
transform as implemented by Pillow in 16.16 fixed point,
`L = (R*19595 + G*38470 + B*7471 + 0x8000) >> 16`. -/
def lumaPix (p : RGBPix) : ℕ := (p.1 * 19595 + p.2.1 * 38470 + p.2.2 * 7471 + 32768) / 65536

/-- Model of PIL `img.convert('L')`: per-pixel luma transform. -/
def convertL (m : RGBImg) : GrayImg := m.map (fun row => row.map lumaPix)

/-- `np.array(gray, dtype=np.float32)`: grayscale intensities as exact rationals. -/
def toQ (m : GrayImg) : List (List ℚ) := m.map (fun row => row.map (fun (v : ℕ) => (v : ℚ)))

/-- Flatten an RGB raster to the list of all channel samples in order,
as `np.array(img)` flattened over H x W x 3. -/
def rgbFlat (m : RGBImg) : List ℚ :=
  (m.flatten.map (fun p => [(p.1 : ℚ), (p.2.1 : ℚ), (p.2.2 : ℚ)])).flatten

/-- `np.mean` of a flat float array (empty arrays give `0/0 = 0` in `ℚ`). -/
def qmean (l : List ℚ) : ℚ := l.sum / l.length

/-- `np.var` of a flat float array: mean of squared deviations from the mean. -/
def qvar (l : List ℚ) : ℚ := qmean (l.map (fun x => (x - qmean l) ^ 2))

/-- Matrix entry access with numpy-style defaulting (`arr[i][j]`, 0 outside). -/
def get2 (m : List (List ℚ)) (i j : ℕ) : ℚ := (m.getD i []).getD j 0

/-- Index into a width-1 edge pad (`np.pad(..., ((1,1),(1,1)), mode='edge')`):
padded index `i` over an axis of source length `n` reads source index
`min (n-1) (i-1)` (`ℕ` subtraction clamps the left border). -/
def clampIdx (n i : ℕ) : ℕ := min (n - 1) (i - 1)

/-- Entry `(i, j)` of the edge-padded array of `m`. -/
def epad (m : List (List ℚ)) (i j : ℕ) : ℚ :=
  get2 m (clampIdx (nrows m) i) (clampIdx (ncols m) j)

/-- Index into a width-1 reflect pad (`np.pad(..., ((1,1),(1,1)), mode='reflect')`):
padded index `0` reads source index `1` (or `0` on a length-1 axis), padded
index `n+1` reads source index `n-2` (or `0` on a length-1 axis). -/
def rIdx (n i : ℕ) : ℕ :=
  if i = 0 then min 1 (n - 1)
  else if n ≤ i - 1 then n - 1 - 1
  else i - 1

/-- Entry `(i, j)` of the reflect-padded array of `m`. -/
def rpad (m : List (List ℚ)) (i j : ℕ) : ℚ :=
  get2 m (rIdx (nrows m) i) (rIdx (ncols m) j)

/-- `arr.min()` of a flat float array (0 on the empty array, which numpy rejects;
the source never reaches that case with a degenerate result). -/
noncomputable def listMin : List ℝ → ℝ
  | [] => 0
  | x :: xs => xs.foldl min x

/-- `arr.max()` of a flat float array. -/
noncomputable def listMax : List ℝ → ℝ
  | [] => 0
  | x :: xs => xs.foldl max x

open Classical in
/-- `utils.normalize_array`: linearly rescale a float array to `[0,255]` and
truncate to `uint8`; a constant array (max = min) maps to `np.zeros_like`.
The `astype(np.uint8)` truncation is embedded as `Nat.floor`, which agrees
with it on the nonnegative in-range values this function produces. -/
noncomputable def normalize_array (a : List (List ℝ)) : List (List ℕ) :=
  let arr_min := listMin a.flatten
  let arr_max := listMax a.flatten
  if arr_max - arr_min = 0 then a.map (fun row => row.map (fun _ => 0))
  else a.map (fun row => row.map (fun x => ⌊(x - arr_min) / (arr_max - arr_min) * 255⌋₊))


/-- `np.mean` of a flat float64 array, over `ℝ`. -/
noncomputable def rmean (l : List ℝ) : ℝ := l.sum / l.length

/-- `np.var` of a flat float64 array, over `ℝ`. -/
noncomputable def rvar (l : List ℝ) : ℝ := rmean (l.map (fun x => (x - rmean l) ^ 2))

/-- Covariance of two flat float arrays (the off-diagonal entry of
`np.cov`; the `1/(n-1)` vs `1/n` normalization cancels in `np.corrcoef`,
so the mean-normalized form is used throughout). -/
noncomputable def rcov (l1 l2 : List ℝ) : ℝ :=
  rmean (List.zipWith (fun a b => (a - rmean l1) * (b - rmean l2)) l1 l2)

/-- `np.std` of a flat float array. -/
noncomputable def rstd (l : List ℝ) : ℝ := Real.sqrt (rvar l)

/-- `edges.grad_x`: horizontal Sobel gradient `(tr + 2*mr + br) - (tl + 2*ml + bl)`
over the edge-padded grayscale field. -/
def grad_x (m : List (List ℚ)) : List (List ℚ) :=
  (List.range (nrows m)).map (fun i => (List.range (ncols m)).map (fun j =>
    (epad m i (j+2) + 2 * epad m (i+1) (j+2) + epad m (i+2) (j+2))
      - (epad m i j + 2 * epad m (i+1) j + epad m (i+2) j)))

/-- `edges.grad_y`: vertical Sobel gradient `(bl + 2*bc + br) - (tl + 2*tc + tr)`
over the edge-padded grayscale field. -/
def grad_y (m : List (List ℚ)) : List (List ℚ) :=
  (List.range (nrows m)).map (fun i => (List.range (ncols m)).map (fun j =>
    (epad m (i+2) j + 2 * epad m (i+2) (j+1) + epad m (i+2) (j+2))
      - (epad m i j + 2 * epad m i (j+1) + epad m i (j+2))))

/-- `magnitude = np.sqrt(grad_x**2 + grad_y**2)`. -/
noncomputable def sobelMagnitude (m : List (List ℚ)) : List (List ℝ) :=
  List.zipWith (List.zipWith (fun gx gy => Real.sqrt ((gx ^ 2 + gy ^ 2 : ℚ) : ℝ)))
    (grad_x m) (grad_y m)

/-- `density = np.mean(mag_norm > threshold)` with `threshold = 80`. -/
def edgeDensity (mag_norm : List (List ℕ)) : ℚ :=
  ((mag_norm.flatten.countP (fun v => decide (80 < v)) : ℕ) : ℚ) / mag_norm.flatten.length

/-- The scalar outputs of `edges.sobel_edge_detection` (the display image is
the `mag_norm` field rendered as-is and is not modelled separately). -/
structure SobelResult where
  density : ℚ
  mag_norm : List (List ℕ)

/-- `edges.sobel_edge_detection`: grayscale, Sobel magnitude, display
normalization, density.  Note the returned magnitude field is the
NORMALIZED `mag_norm`. -/
noncomputable def sobel_edge_detection (img : RGBImg) : SobelResult :=
  let img_arr := toQ (convertL img)
  let mag_norm := normalize_array (sobelMagnitude img_arr)
  { density := edgeDensity mag_norm, mag_norm := mag_norm }

open Classical in
/-- `edges.calculate_edge_preservation`: Pearson correlation (`np.corrcoef`)
of the two flattened magnitude fields, with a `np.std == 0` guard
returning 0.0. -/
noncomputable def calculate_edge_preservation (orig_mag edit_mag : List (List ℕ)) : ℝ :=
  let f1 := orig_mag.flatten.map (fun (v : ℕ) => (v : ℝ))
  let f2 := edit_mag.flatten.map (fun (v : ℕ) => (v : ℝ))
  if rstd f1 = 0 ∨ rstd f2 = 0 then 0
  else rcov f1 f2 / (rstd f1 * rstd f2)

/-- The scalar outputs of `edges.analyze_edges` (difference-map images are
display artifacts and are not modelled). -/
structure EdgeResult where
  density_original : ℚ
  density_edited : ℚ
  density_delta : ℚ
  preservation_score : ℝ

/-- `edges.analyze_edges`: runs Sobel detection on both rasters and bundles
densities and the preservation score of the two returned magnitude fields. -/
noncomputable def analyze_edges (img_orig img_edited : RGBImg) : EdgeResult :=
  let o := sobel_edge_detection img_orig
  let e := sobel_edge_detection img_edited
  { density_original := o.density
    density_edited := e.density
    density_delta := e.density - o.density
    preservation_score := calculate_edge_preservation o.mag_norm e.mag_norm }

open Classical in
/-- Follows the spec's words (section 4.1): the Pearson correlation
coefficient between two flattened magnitude fields, defined as 0.0 if
either field has zero standard deviation (equivalently, zero variance). -/
noncomputable def spec_pearson_or_zero (f1 f2 : List ℝ) : ℝ :=
  if rvar f1 = 0 ∨ rvar f2 = 0 then 0
  else rcov f1 f2 / (rstd f1 * rstd f2)


/-- The 9 samples of the 3x3 reflect-padded neighborhood of pixel `(i, j)`
(`noise.calculate_local_variance` stacks the 9 shifted views of the padded
array; pixel `(i, j)` sees `padded[i+di][j+dj]` for `di, dj < 3`). -/
def neighborhood9 (m : List (List ℚ)) (i j : ℕ) : List ℚ :=
  ((List.range 3).map (fun di => (List.range 3).map (fun dj => rpad m (i + di) (j + dj)))).flatten

/-- Per-pixel variance of the 3x3 neighborhood (`np.var(stack, axis=0)`). -/
def local_variance_field (m : List (List ℚ)) : List (List ℚ) :=
  (List.range (nrows m)).map (fun i =>
    (List.range (ncols m)).map (fun j => qvar (neighborhood9 m i j)))

/-- Scalar outputs of `noise.calculate_local_variance` (display images skipped). -/
structure LocalVarResult where
  mean_var : ℚ
  local_var : List (List ℚ)

/-- `noise.calculate_local_variance`: grayscale, 3x3 reflect-padded local
variance field, and its global mean (the noise score). -/
def calculate_local_variance (img : RGBImg) : LocalVarResult :=
  let arr := toQ (convertL img)
  let lv := local_variance_field arr
  { mean_var := qmean lv.flatten, local_var := lv }

/-- The shifted-slice sum from `noise.estimate_gaussian_noise`:
`1*p[i][j] - 2*p[i][j+1] + 1*p[i][j+2] - 2*p[i+1][j] + 4*p[i+1][j+1]
 - 2*p[i+1][j+2] + 1*p[i+2][j] - 2*p[i+2][j+1] + 1*p[i+2][j+2]`
over the edge-padded grayscale field. -/
def noiseResponse (m : List (List ℚ)) : List (List ℚ) :=
  (List.range (nrows m)).map (fun i => (List.range (ncols m)).map (fun j =>
    1 * epad m i j + -2 * epad m i (j+1) + 1 * epad m i (j+2)
      + -2 * epad m (i+1) j + 4 * epad m (i+1) (j+1) + -2 * epad m (i+1) (j+2)
      + 1 * epad m (i+2) j + -2 * epad m (i+2) (j+1) + 1 * epad m (i+2) (j+2)))

/-- `noise.estimate_gaussian_noise`: 0.0 when either grayscale dimension is
below 3, otherwise `np.std(conv) / 6.0`. -/
noncomputable def estimate_gaussian_noise (img : RGBImg) : ℝ :=
  let arr := toQ (convertL img)
  if nrows arr < 3 ∨ ncols arr < 3 then 0
  else Real.sqrt ((qvar (noiseResponse arr).flatten : ℚ) : ℝ) / 6

/-- Scalar outputs of `noise.analyze_noise` (difference-map images skipped). -/
structure NoiseResult where
  noise_original : ℚ
  noise_edited : ℚ
  noise_delta : ℚ
  gaussian_noise_orig : ℝ
  gaussian_noise_edit : ℝ

/-- `noise.analyze_noise`: local-variance scores of both rasters, their
delta, and both Gaussian sigma estimates. -/
noncomputable def analyze_noise (img_orig img_edited : RGBImg) : NoiseResult :=
  let o := calculate_local_variance img_orig
  let e := calculate_local_variance img_edited
  { noise_original := o.mean_var
    noise_edited := e.mean_var
    noise_delta := e.mean_var - o.mean_var
    gaussian_noise_orig := estimate_gaussian_noise img_orig
    gaussian_noise_edit := estimate_gaussian_noise img_edited }

/-- The spec's second-difference noise kernel `[[1,-2,1],[-2,4,-2],[1,-2,1]]`. -/
def noiseKernel (di dj : ℕ) : ℚ :=
  match di, dj with
  | 0, 0 => 1 | 0, 1 => -2 | 0, 2 => 1
  | 1, 0 => -2 | 1, 1 => 4 | 1, 2 => -2
  | 2, 0 => 1 | 2, 1 => -2 | 2, 2 => 1
  | _, _ => 0

/-- Follows the spec's words (section 4.2): the image convolved (edge-padded)
with the noise kernel, written as an explicit kernel sum. -/
def spec_noise_response (m : List (List ℚ)) : List (List ℚ) :=
  (List.range (nrows m)).map (fun i => (List.range (ncols m)).map (fun j =>
    ∑ di ∈ Finset.range 3, ∑ dj ∈ Finset.range 3, noiseKernel di dj * epad m (i + di) (j + dj)))


/-- `metrics.calculate_mse`: mean of squared per-channel differences. -/
def calculate_mse (img1 img2 : RGBImg) : ℚ :=
  qmean (List.zipWith (fun a b => (a - b) ^ 2) (rgbFlat img1) (rgbFlat img2))

/-- `metrics.calculate_psnr`: `+inf` when the MSE is 0, otherwise
`20 * log10(255 / sqrt(mse))`. -/
noncomputable def calculate_psnr (img1 img2 : RGBImg) : EReal :=
  if calculate_mse img1 img2 = 0 then ⊤
  else ((20 * Real.logb 10 (255 / Real.sqrt ((calculate_mse img1 img2 : ℚ) : ℝ)) : ℝ) : EReal)

open Classical in
/-- `metrics.calculate_snr`: `+inf` when the raster's standard deviation is 0,
otherwise `20 * log10(mean / std)`. -/
noncomputable def calculate_snr (img : RGBImg) : EReal :=
  if Real.sqrt ((qvar (rgbFlat img) : ℚ) : ℝ) = 0 then ⊤
  else ((20 * Real.logb 10 (((qmean (rgbFlat img) : ℚ) : ℝ)
          / Real.sqrt ((qvar (rgbFlat img) : ℚ) : ℝ)) : ℝ) : EReal)

/-- `gray.histogram()` bin `k`: the count of pixels with intensity `k`. -/
def histL (gray : GrayImg) (k : ℕ) : ℕ := gray.flatten.count k

/-- `sum(histogram)` over the 256 bins of an `'L'`-mode histogram. -/
def histTotal (gray : GrayImg) : ℕ := ∑ k ∈ Finset.range 256, histL gray k

/-- `metrics.calculate_entropy`: Shannon entropy (base 2) of the grayscale
histogram, skipping zero-probability bins. -/
noncomputable def calculate_entropy (img : RGBImg) : ℝ :=
  let gray := convertL img;
  -∑ k ∈ Finset.range 256,
    (fun p : ℝ => if p = 0 then 0 else p * Real.logb 2 p)
      ((histL gray k : ℝ) / (histTotal gray : ℝ))

/-- `metrics.calculate_ssim`: the simplified global SSIM over grayscale. -/
def calculate_ssim (img1 img2 : RGBImg) : ℚ :=
  let i1 := (toQ (convertL img1)).flatten
  let i2 := (toQ (convertL img2)).flatten
  let c1 : ℚ := (0.01 * 255) ^ 2
  let c2 : ℚ := (0.03 * 255) ^ 2
  let mu1 := qmean i1
  let mu2 := qmean i2
  let sigma1_sq := qvar i1
  let sigma2_sq := qvar i2
  let sigma12 := qmean (List.zipWith (fun a b => (a - mu1) * (b - mu2)) i1 i2)
  ((2 * mu1 * mu2 + c1) * (2 * sigma12 + c2))
    / ((mu1 ^ 2 + mu2 ^ 2 + c1) * (sigma1_sq + sigma2_sq + c2))

/-- The scalar bundle returned by `metrics.analyze_metrics`. -/
structure MetricsResult where
  mse : ℚ
  psnr : EReal
  ssim : ℚ
  snr_orig : EReal
  snr_edit : EReal
  entropy_orig : ℝ
  entropy_edit : ℝ

/-- `metrics.analyze_metrics`, parameterized by the library resampling
routine `resize` (PIL `Image.resize`, an external call): when the PIL sizes
differ the edited operand is resized to the original's size for the
comparison metrics; SNR and entropy are computed on the unresized inputs. -/
noncomputable def analyze_metrics (resize : RGBImg → ℕ × ℕ → RGBImg)
    (img_orig img_edited : RGBImg) : MetricsResult :=
  let img_edited_resized :=
    if imgSize img_orig ≠ imgSize img_edited then resize img_edited (imgSize img_orig)
    else img_edited
  { mse := calculate_mse img_orig img_edited_resized
    psnr := calculate_psnr img_orig img_edited_resized
    ssim := calculate_ssim img_orig img_edited_resized
    snr_orig := calculate_snr img_orig
    snr_edit := calculate_snr img_edited
    entropy_orig := calculate_entropy img_orig
    entropy_edit := calculate_entropy img_edited }

/-- A concrete resampling routine (nearest neighbor) used to instantiate
the `resize` parameter in witnesses. -/
def nearestResize (img : RGBImg) (size : ℕ × ℕ) : RGBImg :=
  (List.range size.2).map (fun i => (List.range size.1).map (fun j =>
    (img.getD (i * nrows img / size.2) []).getD (j * ncols img / size.1) (0, 0, 0)))

/-- Channel `c` of a pixel (`arr[:,:,c]`). -/
def channelVal (c : ℕ) (p : RGBPix) : ℕ :=
  match c with
  | 0 => p.1
  | 1 => p.2.1
  | 2 => p.2.2
  | _ => 0

/-- All samples of channel `c` of a raster. -/
def channelList (img : RGBImg) (c : ℕ) : List ℕ := img.flatten.map (channelVal c)

/-- `np.histogram(..., bins=256, range=(0,256))` bin `k`: the half-open
interval `[k, k+1)`, except the last bin which is the closed `[255, 256]`. -/
def npHistBin (vals : List ℕ) (k : ℕ) : ℕ :=
  if k < 255 then vals.countP (fun v => decide (k ≤ v ∧ v < k + 1))
  else vals.countP (fun v => decide (255 ≤ v ∧ v ≤ 256))

/-- The stacked per-channel histogram of `histogram.calculate_histogram_stats`:
`hist c k` is bin `k` of channel `c`. -/
def calculate_histogram_hist (img : RGBImg) (c k : ℕ) : ℕ := npHistBin (channelList img c) k

/-- Outputs of `histogram.calculate_histogram_stats`. -/
structure HistStats where
  hist : ℕ → ℕ → ℕ
  brightness : ℚ
  contrast : ℝ

/-- `histogram.calculate_histogram_stats`: per-channel histograms,
brightness = `np.mean(arr)`, contrast = `np.std(arr)`. -/
noncomputable def calculate_histogram_stats (img : RGBImg) : HistStats :=
  { hist := calculate_histogram_hist img
    brightness := qmean (rgbFlat img)
    contrast := Real.sqrt ((qvar (rgbFlat img) : ℚ) : ℝ) }

/-- Scalar outputs of `histogram.analyze_histogram` (plots skipped). -/
structure HistResult where
  brightness_delta : ℚ
  contrast_delta : ℝ
  histogram_delta_score : ℚ

/-- `histogram.analyze_histogram`: brightness/contrast deltas and the
normalized histogram delta score
`np.sum(np.abs(hist_orig - hist_edited)) / (total_pixels * 3) * 100`. -/
noncomputable def analyze_histogram (img_orig img_edited : RGBImg) : HistResult :=
  let o := calculate_histogram_stats img_orig
  let e := calculate_histogram_stats img_edited
  let total_pixels := ncols img_orig * nrows img_orig
  let hist_diff : ℕ :=
    ∑ c ∈ Finset.range 3, ∑ k ∈ Finset.range 256, ((o.hist c k : ℤ) - (e.hist c k : ℤ)).natAbs
  { brightness_delta := e.brightness - o.brightness
    contrast_delta := e.contrast - o.contrast
    histogram_delta_score := ((hist_diff : ℚ) / (total_pixels * 3)) * 100 }

/-- The executive-summary verdict of `report.generate_summary_text`:
start from `"improved"`, override with `"degraded (more noise)"` when
`noise_delta > 0`, then override with `"softer/blurred"` when
`sharpness_delta < 0`. -/
def generate_summary_quality_change (noise_delta sharpness_delta : ℚ) : String :=
  let quality_change := "improved"
  let quality_change := if noise_delta > 0 then "degraded (more noise)" else quality_change
  let quality_change := if sharpness_delta < 0 then "softer/blurred" else quality_change
  quality_change


/-- An 8-bit raster: every channel sample is at most 255. -/
def img8bit (img : RGBImg) : Prop :=
  ∀ row ∈ img, ∀ p ∈ row, p.1 ≤ 255 ∧ p.2.1 ≤ 255 ∧ p.2.2 ≤ 255

/-- Follows the spec's words (section 4.3): the histogram delta score as the
sum over all 3 channels and 256 bins of the absolute per-bin count
differences (counting, per bin `k`, the pixels whose channel value is `k`),
divided by `pixel_count * 3` and scaled to a percentage. -/
def spec_hist_delta (img_orig img_edited : RGBImg) : ℚ :=
  ((∑ c ∈ Finset.range 3, ∑ k ∈ Finset.range 256,
      |((channelList img_orig c).count k : ℤ) - ((channelList img_edited c).count k : ℤ)| : ℤ) : ℚ)
    / ((ncols img_orig * nrows img_orig) * 3) * 100

-- ===== Helper theorems =====

/-- Every element of a list is bounded below by the min-fold that `listMin` uses. -/
theorem foldl_min_le (xs : List ℝ) : ∀ (a : ℝ) (y : ℝ), y ∈ a :: xs → xs.foldl min a ≤ y := by
  induction xs with
  | nil => intro a y hy; simp at hy; simp [hy]
  | cons b bs ih =>
      intro a y hy
      simp only [List.foldl_cons]
      have hself : bs.foldl min (min a b) ≤ min a b := ih (min a b) (min a b) (List.mem_cons_self _ _)
      rcases List.mem_cons.mp hy with rfl | hyb
      · exact le_trans hself (min_le_left y b)
      · rcases List.mem_cons.mp hyb with rfl | hyc
        · exact le_trans hself (min_le_right a y)
        · exact ih (min a b) y (List.mem_cons_of_mem _ hyc)

/-- Every element of a list is bounded above by the max-fold that `listMax` uses. -/
theorem le_foldl_max (xs : List ℝ) : ∀ (a : ℝ) (y : ℝ), y ∈ a :: xs → y ≤ xs.foldl max a := by
  induction xs with
  | nil => intro a y hy; simp at hy; simp [hy]
  | cons b bs ih =>
      intro a y hy
      simp only [List.foldl_cons]
      have hself : max a b ≤ bs.foldl max (max a b) := ih (max a b) (max a b) (List.mem_cons_self _ _)
      rcases List.mem_cons.mp hy with rfl | hyb
      · exact le_trans (le_max_left y b) hself
      · rcases List.mem_cons.mp hyb with rfl | hyc
        · exact le_trans (le_max_right a y) hself
        · exact ih (max a b) y (List.mem_cons_of_mem _ hyc)

theorem listMin_le {l : List ℝ} {y : ℝ} (hy : y ∈ l) : listMin l ≤ y := by
  cases l with
  | nil => simp at hy
  | cons x xs => exact foldl_min_le xs x y hy

theorem le_listMax {l : List ℝ} {y : ℝ} (hy : y ∈ l) : y ≤ listMax l := by
  cases l with
  | nil => simp at hy
  | cons x xs => exact le_foldl_max xs x y hy


theorem zipWith_self {α β : Type} (f : α → α → β) (l : List α) :
    List.zipWith f l l = l.map (fun x => f x x) := by
  induction l with
  | nil => rfl
  | cons x xs ih => simp [List.zipWith, ih]

theorem rmean_nonneg {l : List ℝ} (h : ∀ x ∈ l, 0 ≤ x) : 0 ≤ rmean l := by
  unfold rmean
  exact div_nonneg (List.sum_nonneg h) (Nat.cast_nonneg _)

theorem rvar_nonneg (l : List ℝ) : 0 ≤ rvar l := by
  unfold rvar
  exact rmean_nonneg (by intro x hx; obtain ⟨y, _, rfl⟩ := List.mem_map.mp hx; positivity)

theorem rstd_eq_zero_iff (l : List ℝ) : rstd l = 0 ↔ rvar l = 0 := by
  unfold rstd
  rw [Real.sqrt_eq_zero']
  exact ⟨fun h => le_antisymm h (rvar_nonneg l), fun h => le_of_eq h⟩

theorem rcov_self (l : List ℝ) : rcov l l = rvar l := by
  unfold rcov rvar
  rw [zipWith_self]
  congr 1
  exact List.map_congr_left (fun x _ => (sq (x - rmean l)).symm)

theorem rstd_mul_self (l : List ℝ) : rstd l * rstd l = rvar l := by
  unfold rstd
  exact Real.mul_self_sqrt (rvar_nonneg l)

/-- Pearson correlation of a list with itself is 1 when its variance is nonzero. -/
theorem edge_preservation_self {m : List (List ℕ)}
    (h : rvar (m.flatten.map (fun (v : ℕ) => (v : ℝ))) ≠ 0) :
    calculate_edge_preservation m m = 1 := by
  unfold calculate_edge_preservation
  rw [if_neg (by rw [or_self, rstd_eq_zero_iff]; exact h)]
  rw [rcov_self, rstd_mul_self]
  exact div_self h

/-- Pearson correlation of a list with itself takes the 0.0 sentinel when
its variance (equivalently its standard deviation) is zero. -/
theorem edge_preservation_self_degenerate {m : List (List ℕ)}
    (h : rvar (m.flatten.map (fun (v : ℕ) => (v : ℝ))) = 0) :
    calculate_edge_preservation m m = 0 := by
  unfold calculate_edge_preservation
  rw [if_pos (Or.inl ((rstd_eq_zero_iff _).mpr h))]


/-- The source's shifted-slice sum computes exactly the spec's kernel sum. -/
theorem noiseResponse_eq_spec (m : List (List ℚ)) : noiseResponse m = spec_noise_response m := by
  unfold noiseResponse spec_noise_response
  refine List.map_congr_left (fun i _ => List.map_congr_left (fun j _ => ?_))
  simp [Finset.sum_range_succ, noiseKernel]
  ring


theorem qmean_nonneg {l : List ℚ} (h : ∀ x ∈ l, 0 ≤ x) : 0 ≤ qmean l := by
  unfold qmean
  exact div_nonneg (List.sum_nonneg h) (Nat.cast_nonneg _)

theorem qvar_nonneg (l : List ℚ) : 0 ≤ qvar l := by
  unfold qvar
  exact qmean_nonneg (by intro x hx; obtain ⟨y, _, rfl⟩ := List.mem_map.mp hx; positivity)

theorem qmean_map_zero (l : List ℚ) : qmean (l.map (fun _ => (0 : ℚ))) = 0 := by
  unfold qmean
  simp

-- ===== Claim theorems =====

/-- C9: the executive-summary verdict of `generate_summary_text` is
`"improved"` by default, `"degraded (more noise)"` when `noise_delta > 0`,
and `"softer/blurred"` when `sharpness_delta < 0`, the sharpness check
overriding the noise check when both fire. -/
theorem claim_C9_verdict_precedence (noise_delta sharpness_delta : ℚ) :
    generate_summary_quality_change noise_delta sharpness_delta =
      (if sharpness_delta < 0 then "softer/blurred"
       else if noise_delta > 0 then "degraded (more noise)" else "improved") := by
  unfold generate_summary_quality_change
  by_cases h1 : sharpness_delta < 0 <;> by_cases h2 : noise_delta > 0 <;> simp [h1, h2]

/-- C3: `analyze_metrics` resizes the edited operand to the original's
size whenever the sizes differ and computes MSE/PSNR/SSIM on the original
paired with the resized raster; when the sizes match, the edited raster is
used unchanged. -/
theorem claim_C3_metrics_resize (resize : RGBImg → ℕ × ℕ → RGBImg)
    (img_orig img_edited : RGBImg) :
    (imgSize img_orig ≠ imgSize img_edited →
      (analyze_metrics resize img_orig img_edited).mse
          = calculate_mse img_orig (resize img_edited (imgSize img_orig))
        ∧ (analyze_metrics resize img_orig img_edited).psnr
          = calculate_psnr img_orig (resize img_edited (imgSize img_orig))
        ∧ (analyze_metrics resize img_orig img_edited).ssim
          = calculate_ssim img_orig (resize img_edited (imgSize img_orig)))
    ∧ (imgSize img_orig = imgSize img_edited →
      (analyze_metrics resize img_orig img_edited).mse = calculate_mse img_orig img_edited
        ∧ (analyze_metrics resize img_orig img_edited).psnr = calculate_psnr img_orig img_edited
        ∧ (analyze_metrics resize img_orig img_edited).ssim = calculate_ssim img_orig img_edited) := by
  by_cases hc : imgSize img_orig = imgSize img_edited
  · exact ⟨fun h => absurd hc h, fun _ => by simp [analyze_metrics, hc]⟩
  · exact ⟨fun _ => by simp [analyze_metrics, hc], fun h => absurd h hc⟩

/-- C10: the `snr_edit` and `entropy_edit` fields of `analyze_metrics` are
computed on the unresized edited raster even when the sizes differ, while
the comparison metrics (witnessed here by MSE) use the resized copy. -/
theorem claim_C10_snr_entropy_unresized (resize : RGBImg → ℕ × ℕ → RGBImg)
    (img_orig img_edited : RGBImg) :
    (analyze_metrics resize img_orig img_edited).snr_edit = calculate_snr img_edited
    ∧ (analyze_metrics resize img_orig img_edited).entropy_edit = calculate_entropy img_edited
    ∧ (imgSize img_orig ≠ imgSize img_edited →
        (analyze_metrics resize img_orig img_edited).mse
          = calculate_mse img_orig (resize img_edited (imgSize img_orig))) := by
  refine ⟨rfl, rfl, fun h => ?_⟩
  simp [analyze_metrics, h]

/-- C4: `calculate_psnr` returns `+inf` exactly when the MSE is 0 and
otherwise `20*log10(255/sqrt(MSE))`; `calculate_snr` returns `+inf` exactly
when the raster's standard deviation is 0 and otherwise `20*log10(mean/std)`;
both sentinel cases are returned values, not errors. -/
theorem claim_C4_psnr_snr_sentinels (img1 img2 img : RGBImg) :
    (calculate_psnr img1 img2 = ⊤ ↔ calculate_mse img1 img2 = 0)
    ∧ (calculate_mse img1 img2 ≠ 0 →
        calculate_psnr img1 img2
          = ((20 * Real.logb 10 (255 / Real.sqrt ((calculate_mse img1 img2 : ℚ) : ℝ)) : ℝ) : EReal))
    ∧ (calculate_snr img = ⊤ ↔ Real.sqrt ((qvar (rgbFlat img) : ℚ) : ℝ) = 0)
    ∧ (Real.sqrt ((qvar (rgbFlat img) : ℚ) : ℝ) ≠ 0 →
        calculate_snr img
          = ((20 * Real.logb 10 (((qmean (rgbFlat img) : ℚ) : ℝ)
              / Real.sqrt ((qvar (rgbFlat img) : ℚ) : ℝ)) : ℝ) : EReal)) := by
  refine ⟨?_, fun h => ?_, ?_, fun h => ?_⟩
  · unfold calculate_psnr
    by_cases h : calculate_mse img1 img2 = 0
    · rw [if_pos h]; exact iff_of_true rfl h
    · rw [if_neg h]; exact iff_of_false (EReal.coe_ne_top _) h
  · unfold calculate_psnr
    rw [if_neg h]
  · unfold calculate_snr
    by_cases h : Real.sqrt ((qvar (rgbFlat img) : ℚ) : ℝ) = 0
    · rw [if_pos h]; exact iff_of_true rfl h
    · rw [if_neg h]; exact iff_of_false (EReal.coe_ne_top _) h
  · unfold calculate_snr
    rw [if_neg h]

/-- Witness for C4: concrete nonzero-MSE and nonzero-std rasters take the
logarithmic branch. -/
theorem claim_C4_psnr_snr_sentinels_witness :
    calculate_psnr [[(0, 0, 0)]] [[(255, 0, 0)]]
      = ((20 * Real.logb 10
          (255 / Real.sqrt ((calculate_mse [[(0, 0, 0)]] [[(255, 0, 0)]] : ℚ) : ℝ)) : ℝ) : EReal)
    ∧ calculate_snr [[(255, 0, 0)]]
      = ((20 * Real.logb 10 (((qmean (rgbFlat [[(255, 0, 0)]]) : ℚ) : ℝ)
          / Real.sqrt ((qvar (rgbFlat [[(255, 0, 0)]]) : ℚ) : ℝ)) : ℝ) : EReal) := by
  constructor
  · exact (claim_C4_psnr_snr_sentinels [[(0, 0, 0)]] [[(255, 0, 0)]] [[(255, 0, 0)]]).2.1
      (by simp [calculate_mse, rgbFlat, qmean])
  · refine (claim_C4_psnr_snr_sentinels [[(0, 0, 0)]] [[(255, 0, 0)]] [[(255, 0, 0)]]).2.2.2 ?_
    have h : qvar (rgbFlat [[(255, 0, 0)]]) = 14450 := by
      simp [qvar, qmean, rgbFlat]
      norm_num
    rw [h]
    simp only [ne_eq, Real.sqrt_eq_zero', not_le]
    push_cast
    norm_num

/-- Witness for C3: a 1x1 original against a 2x1 edited raster takes the
resize path; equal-sized rasters take the unchanged path. -/
theorem claim_C3_metrics_resize_witness :
    (analyze_metrics nearestResize [[(0, 0, 0)]] [[(0, 0, 0), (0, 0, 0)]]).mse
      = calculate_mse [[(0, 0, 0)]]
          (nearestResize [[(0, 0, 0), (0, 0, 0)]] (imgSize ([[(0, 0, 0)]] : RGBImg)))
    ∧ (analyze_metrics nearestResize [[(0, 0, 0)]] [[(0, 0, 0)]]).ssim
      = calculate_ssim [[(0, 0, 0)]] [[(0, 0, 0)]] :=
  ⟨((claim_C3_metrics_resize nearestResize [[(0, 0, 0)]] [[(0, 0, 0), (0, 0, 0)]]).1
      (by decide)).1,
   ((claim_C3_metrics_resize nearestResize [[(0, 0, 0)]] [[(0, 0, 0)]]).2 rfl).2.2⟩

/-- Witness for C10: with mismatched sizes the MSE is taken on the resized
copy while `snr_edit` is taken on the unresized edited raster. -/
theorem claim_C10_snr_entropy_unresized_witness :
    (analyze_metrics nearestResize [[(1, 1, 1)]] [[(2, 2, 2), (3, 3, 3)]]).mse
      = calculate_mse [[(1, 1, 1)]]
          (nearestResize [[(2, 2, 2), (3, 3, 3)]] (imgSize ([[(1, 1, 1)]] : RGBImg)))
    ∧ (analyze_metrics nearestResize [[(1, 1, 1)]] [[(2, 2, 2), (3, 3, 3)]]).snr_edit
      = calculate_snr [[(2, 2, 2), (3, 3, 3)]] :=
  ⟨(claim_C10_snr_entropy_unresized nearestResize [[(1, 1, 1)]] [[(2, 2, 2), (3, 3, 3)]]).2.2
      (by decide),
   (claim_C10_snr_entropy_unresized nearestResize [[(1, 1, 1)]] [[(2, 2, 2), (3, 3, 3)]]).1⟩

theorem foldl_min_mem (xs : List ℝ) : ∀ a, xs.foldl min a ∈ a :: xs := by
  induction xs with
  | nil => intro a; simp
  | cons b bs ih =>
      intro a
      simp only [List.foldl_cons]
      rcases List.mem_cons.mp (ih (min a b)) with h | h
      · rcases min_choice a b with hm | hm
        · exact List.mem_cons.mpr (Or.inl (h.trans hm))
        · exact List.mem_cons_of_mem _ (List.mem_cons.mpr (Or.inl (h.trans hm)))
      · exact List.mem_cons_of_mem _ (List.mem_cons_of_mem _ h)

theorem foldl_max_mem (xs : List ℝ) : ∀ a, xs.foldl max a ∈ a :: xs := by
  induction xs with
  | nil => intro a; simp
  | cons b bs ih =>
      intro a
      simp only [List.foldl_cons]
      rcases List.mem_cons.mp (ih (max a b)) with h | h
      · rcases max_choice a b with hm | hm
        · exact List.mem_cons.mpr (Or.inl (h.trans hm))
        · exact List.mem_cons_of_mem _ (List.mem_cons.mpr (Or.inl (h.trans hm)))
      · exact List.mem_cons_of_mem _ (List.mem_cons_of_mem _ h)

theorem listMin_mem {l : List ℝ} (h : l ≠ []) : listMin l ∈ l := by
  cases l with
  | nil => exact absurd rfl h
  | cons x xs => exact foldl_min_mem xs x

theorem listMax_mem {l : List ℝ} (h : l ≠ []) : listMax l ∈ l := by
  cases l with
  | nil => exact absurd rfl h
  | cons x xs => exact foldl_max_mem xs x

/-- C5: every value of `normalize_array`'s output lies in `[0, 255]` (the
output type is `ℕ`, so `0 ≤ v` holds by construction), and a constant-valued
input array maps to an all-zero array of the same shape. -/
theorem claim_C5_normalize_range (a : List (List ℝ)) :
    (∀ row ∈ normalize_array a, ∀ v ∈ row, v ≤ 255)
    ∧ ((∃ c, ∀ row ∈ a, ∀ x ∈ row, x = c) →
        normalize_array a = a.map (fun row => row.map (fun _ => 0))) := by
  constructor
  · intro row hrow v hv
    simp only [normalize_array] at hrow
    by_cases hc : listMax a.flatten - listMin a.flatten = 0
    · rw [if_pos hc] at hrow
      obtain ⟨row0, _, rfl⟩ := List.mem_map.mp hrow
      obtain ⟨x, _, rfl⟩ := List.mem_map.mp hv
      omega
    · rw [if_neg hc] at hrow
      obtain ⟨row0, hrow0, rfl⟩ := List.mem_map.mp hrow
      obtain ⟨x, hx, rfl⟩ := List.mem_map.mp hv
      have hxflat : x ∈ a.flatten := List.mem_flatten.mpr ⟨row0, hrow0, hx⟩
      have h1 : listMin a.flatten ≤ x := listMin_le hxflat
      have h2 : x ≤ listMax a.flatten := le_listMax hxflat
      have hlt : 0 < listMax a.flatten - listMin a.flatten :=
        lt_of_le_of_ne (by linarith) (Ne.symm hc)
      have hle : (x - listMin a.flatten) / (listMax a.flatten - listMin a.flatten) * 255
          ≤ 255 := by
        have hd : (x - listMin a.flatten) / (listMax a.flatten - listMin a.flatten) ≤ 1 :=
          (div_le_one hlt).mpr (by linarith)
        nlinarith [hd]
      calc ⌊(x - listMin a.flatten) / (listMax a.flatten - listMin a.flatten) * 255⌋₊
          ≤ ⌊(255 : ℝ)⌋₊ := Nat.floor_le_floor hle
        _ = 255 := by norm_num
  · rintro ⟨c, hc⟩
    have hflat : ∀ x ∈ a.flatten, x = c := by
      intro x hx
      obtain ⟨row, hrow, hxr⟩ := List.mem_flatten.mp hx
      exact hc row hrow x hxr
    by_cases hfe : a.flatten = []
    · simp only [normalize_array, hfe, listMin, listMax]
      rw [if_pos (by norm_num)]
    · have hmn : listMin a.flatten = c := hflat _ (listMin_mem hfe)
      have hmx : listMax a.flatten = c := hflat _ (listMax_mem hfe)
      simp only [normalize_array]
      rw [if_pos (by rw [hmn, hmx]; ring)]

/-- Witness for C5: a constant 2x2 array normalizes to the all-zero array. -/
theorem claim_C5_normalize_range_witness :
    normalize_array [[(2 : ℝ), 2], [2, 2]] = [[0, 0], [0, 0]] := by
  have h := (claim_C5_normalize_range [[(2 : ℝ), 2], [2, 2]]).2
    ⟨2, by
      intro row hrow x hx
      simp at hrow
      rcases hrow with rfl | rfl
      all_goals simp at hx
      all_goals tauto⟩
  simpa using h

theorem nrows_toQ (g : GrayImg) : nrows (toQ g) = nrows g := by
  simp [nrows, toQ]

theorem ncols_toQ (g : GrayImg) : ncols (toQ g) = ncols g := by
  cases g with
  | nil => rfl
  | cons r t =>
      show (r.map (fun (v : ℕ) => (v : ℚ))).length = r.length
      exact List.length_map _ _

/-- C7: the Gaussian-noise estimator returns 0.0 when either grayscale
dimension is below 3, and otherwise `std(response)/6.0` where `response` is
the edge-padded convolution with the kernel `[[1,-2,1],[-2,4,-2],[1,-2,1]]`. -/
theorem claim_C7_gaussian_noise (img : RGBImg) :
    (nrows (convertL img) < 3 ∨ ncols (convertL img) < 3 →
      estimate_gaussian_noise img = 0)
    ∧ (3 ≤ nrows (convertL img) → 3 ≤ ncols (convertL img) →
        estimate_gaussian_noise img
          = Real.sqrt ((qvar (spec_noise_response (toQ (convertL img))).flatten : ℚ) : ℝ) / 6) := by
  constructor
  · intro h
    simp only [estimate_gaussian_noise]
    rw [if_pos (by rw [nrows_toQ, ncols_toQ]; exact h)]
  · intro h1 h2
    simp only [estimate_gaussian_noise]
    rw [if_neg (by rw [nrows_toQ, ncols_toQ]; omega), noiseResponse_eq_spec]

/-- Witness for C7: a 1x1 raster returns 0.0; a 3x3 raster takes the
convolution branch. -/
theorem claim_C7_gaussian_noise_witness :
    estimate_gaussian_noise [[(9, 9, 9)]] = 0
    ∧ estimate_gaussian_noise [[(0, 0, 0), (0, 0, 0), (0, 0, 0)],
        [(0, 0, 0), (0, 0, 0), (0, 0, 0)], [(0, 0, 0), (0, 0, 0), (0, 0, 0)]]
      = Real.sqrt ((qvar (spec_noise_response (toQ (convertL
          [[(0, 0, 0), (0, 0, 0), (0, 0, 0)], [(0, 0, 0), (0, 0, 0), (0, 0, 0)],
           [(0, 0, 0), (0, 0, 0), (0, 0, 0)]]))).flatten : ℚ) : ℝ) / 6 :=
  ⟨(claim_C7_gaussian_noise [[(9, 9, 9)]]).1 (by decide),
   (claim_C7_gaussian_noise _).2 (by decide) (by decide)⟩

theorem channelList_le_255 {img : RGBImg} (h : img8bit img) (c : ℕ) :
    ∀ v ∈ channelList img c, v ≤ 255 := by
  intro v hv
  obtain ⟨p, hp, rfl⟩ := List.mem_map.mp hv
  obtain ⟨row, hrow, hpr⟩ := List.mem_flatten.mp hp
  have hb := h row hrow p hpr
  match c with
  | 0 => exact hb.1
  | 1 => exact hb.2.1
  | 2 => exact hb.2.2
  | (n + 3) => simp [channelVal]

theorem npHistBin_eq_count (vals : List ℕ) (h : ∀ v ∈ vals, v ≤ 255) (k : ℕ)
    (hk : k < 256) : npHistBin vals k = vals.count k := by
  unfold npHistBin
  by_cases hk255 : k < 255
  · rw [if_pos hk255, List.count]
    refine List.countP_congr (fun v hv => ?_)
    have := h v hv
    constructor
    · intro hp
      simp only [decide_eq_true_eq] at hp
      simp only [beq_iff_eq]
      omega
    · intro hp
      simp only [beq_iff_eq] at hp
      simp only [decide_eq_true_eq]
      omega
  · have hk' : k = 255 := by omega
    subst hk'
    rw [if_neg hk255, List.count]
    refine List.countP_congr (fun v hv => ?_)
    have := h v hv
    constructor
    · intro hp
      simp only [decide_eq_true_eq] at hp
      simp only [beq_iff_eq]
      omega
    · intro hp
      simp only [beq_iff_eq] at hp
      simp only [decide_eq_true_eq]
      omega

/-- C8: for equal-sized 8-bit rasters, `histogram_delta_score` equals the
sum over all 3 channels and 256 bins of the absolute per-bin histogram
count differences, divided by `pixel_count * 3` and multiplied by 100. -/
theorem claim_C8_hist_delta (img_orig img_edited : RGBImg)
    (ho : img8bit img_orig) (he : img8bit img_edited)
    (_hsz : imgSize img_orig = imgSize img_edited) :
    (analyze_histogram img_orig img_edited).histogram_delta_score
      = spec_hist_delta img_orig img_edited := by
  have h1 : (∑ c ∈ Finset.range 3, ∑ k ∈ Finset.range 256,
        ((calculate_histogram_hist img_orig c k : ℤ)
          - (calculate_histogram_hist img_edited c k : ℤ)).natAbs)
      = ∑ c ∈ Finset.range 3, ∑ k ∈ Finset.range 256,
        (((channelList img_orig c).count k : ℤ)
          - ((channelList img_edited c).count k : ℤ)).natAbs := by
    refine Finset.sum_congr rfl (fun c _ => Finset.sum_congr rfl (fun k hk => ?_))
    unfold calculate_histogram_hist
    rw [npHistBin_eq_count _ (channelList_le_255 ho c) k (Finset.mem_range.mp hk),
        npHistBin_eq_count _ (channelList_le_255 he c) k (Finset.mem_range.mp hk)]
  simp only [analyze_histogram, calculate_histogram_stats]
  rw [h1]
  unfold spec_hist_delta
  push_cast [Int.cast_natAbs]
  ring

/-- Witness for C8: a concrete 1x1 pair of 8-bit rasters. -/
theorem claim_C8_hist_delta_witness :
    (analyze_histogram [[(0, 0, 0)]] [[(255, 0, 0)]]).histogram_delta_score
      = spec_hist_delta [[(0, 0, 0)]] [[(255, 0, 0)]] :=
  claim_C8_hist_delta [[(0, 0, 0)]] [[(255, 0, 0)]]
    (by unfold img8bit; decide) (by unfold img8bit; decide) rfl

theorem entropy_term_eq (x : ℝ) :
    (if x = 0 then (0:ℝ) else x * Real.logb 2 x) = -(Real.negMulLog x / Real.log 2) := by
  by_cases hx : x = 0
  · simp [hx]
  · rw [if_neg hx]
    simp only [Real.negMulLog, Real.logb]
    ring

theorem sum_negMulLog_le_log256 (f : ℕ → ℝ)
    (hf0 : ∀ k ∈ Finset.range 256, 0 ≤ f k)
    (hsum : ∑ k ∈ Finset.range 256, f k = 1) :
    ∑ k ∈ Finset.range 256, Real.negMulLog (f k) ≤ Real.log 256 := by
  have hj := Real.concaveOn_negMulLog.le_map_sum
      (t := Finset.range 256) (w := fun _ => (1:ℝ)/256) (p := f)
      (fun i _ => by norm_num)
      (by simp only [Finset.sum_const, Finset.card_range, nsmul_eq_mul]; norm_num)
      (fun i hi => Set.mem_Ici.mpr (hf0 i hi))
  simp only [smul_eq_mul] at hj
  rw [← Finset.mul_sum, ← Finset.mul_sum, hsum, mul_one] at hj
  have h256 : Real.negMulLog (1/256 : ℝ) = (1/256) * Real.log 256 := by
    simp only [Real.negMulLog, one_div, Real.log_inv]
    ring
  rw [h256] at hj
  exact (mul_le_mul_left (show (0:ℝ) < 1/256 by norm_num)).mp hj

/-- C6: `calculate_entropy` lies in `[0, 8]` for every nonempty 8-bit
raster, and is exactly 0 for a single-valued (solid color) raster. -/
theorem claim_C6_entropy_bounds (img : RGBImg) (hN : 0 < histTotal (convertL img)) :
    0 ≤ calculate_entropy img ∧ calculate_entropy img ≤ 8
    ∧ (∀ c : RGBPix, (∀ row ∈ img, ∀ p ∈ row, p = c) → calculate_entropy img = 0) := by
  have hNpos : (0 : ℝ) < (histTotal (convertL img) : ℝ) := by exact_mod_cast hN
  have hf0 : ∀ k ∈ Finset.range 256,
      0 ≤ (histL (convertL img) k : ℝ) / (histTotal (convertL img) : ℝ) :=
    fun k _ => div_nonneg (Nat.cast_nonneg _) (le_of_lt hNpos)
  have hf1 : ∀ k ∈ Finset.range 256,
      (histL (convertL img) k : ℝ) / (histTotal (convertL img) : ℝ) ≤ 1 := by
    intro k hk
    rw [div_le_one hNpos]
    have : histL (convertL img) k ≤ histTotal (convertL img) :=
      Finset.single_le_sum (f := fun j => histL (convertL img) j) (fun i _ => Nat.zero_le _) hk
    exact_mod_cast this
  have hsum : ∑ k ∈ Finset.range 256,
      (histL (convertL img) k : ℝ) / (histTotal (convertL img) : ℝ) = 1 := by
    rw [← Finset.sum_div, div_eq_one_iff_eq (ne_of_gt hNpos)]
    simp only [histTotal]
    push_cast
    rfl
  have hlog2 : (0:ℝ) < Real.log 2 := Real.log_pos (by norm_num)
  have hentropy : calculate_entropy img = (∑ k ∈ Finset.range 256,
      Real.negMulLog ((histL (convertL img) k : ℝ) / (histTotal (convertL img) : ℝ))) / Real.log 2 := by
    simp only [calculate_entropy]
    rw [Finset.sum_congr rfl (fun k _ => entropy_term_eq
      ((histL (convertL img) k : ℝ) / (histTotal (convertL img) : ℝ)))]
    rw [Finset.sum_neg_distrib, neg_neg, Finset.sum_div]
  refine ⟨?_, ?_, ?_⟩
  · rw [hentropy]
    refine div_nonneg (Finset.sum_nonneg (fun k hk => ?_)) hlog2.le
    exact Real.negMulLog_nonneg (hf0 k hk) (hf1 k hk)
  · rw [hentropy]
    have hS := sum_negMulLog_le_log256 _ hf0 hsum
    have h8 : Real.log 256 / Real.log 2 = 8 := by
      rw [show (256:ℝ) = 2^8 by norm_num, Real.log_pow]
      field_simp
    calc (∑ k ∈ Finset.range 256,
          Real.negMulLog ((histL (convertL img) k : ℝ) / (histTotal (convertL img) : ℝ))) / Real.log 2
        ≤ Real.log 256 / Real.log 2 := by
          exact div_le_div_of_nonneg_right hS hlog2.le
      _ = 8 := h8
  · intro c hc
    have hall : ∀ v ∈ (convertL img).flatten, v = lumaPix c := by
      intro v hv
      obtain ⟨row, hrow, hvr⟩ := List.mem_flatten.mp hv
      obtain ⟨row0, hrow0, rfl⟩ := List.mem_map.mp hrow
      obtain ⟨p0, hp0, rfl⟩ := List.mem_map.mp hvr
      rw [hc row0 hrow0 p0 hp0]
    have hcount0 : ∀ k, k ≠ lumaPix c → histL (convertL img) k = 0 := by
      intro k hk
      unfold histL
      rw [List.count_eq_zero]
      intro hmem
      exact hk (hall k hmem)
    have hglt : lumaPix c < 256 := by
      by_contra hge
      have hz : histTotal (convertL img) = 0 := by
        unfold histTotal
        refine Finset.sum_eq_zero (fun k hk => hcount0 k ?_)
        have := Finset.mem_range.mp hk
        omega
      omega
    have hNg : histTotal (convertL img) = histL (convertL img) (lumaPix c) := by
      unfold histTotal
      exact Finset.sum_eq_single_of_mem _ (Finset.mem_range.mpr hglt)
        (fun k _ hne => hcount0 k hne)
    have hpg : (histL (convertL img) (lumaPix c) : ℝ) / (histTotal (convertL img) : ℝ) = 1 := by
      rw [hNg]
      refine div_self ?_
      rw [← hNg]
      exact ne_of_gt hNpos
    rw [hentropy]
    rw [Finset.sum_eq_zero, zero_div]
    intro k hk
    by_cases hkg : k = lumaPix c
    · rw [hkg, hpg, Real.negMulLog_one]
    · rw [hcount0 k hkg]
      simp

set_option maxRecDepth 4000 in
/-- Witness for C6: a 1x1 solid raster has entropy 0 (hence within `[0, 8]`). -/
theorem claim_C6_entropy_bounds_witness :
    0 ≤ calculate_entropy [[(7, 7, 7)]] ∧ calculate_entropy [[(7, 7, 7)]] ≤ 8
    ∧ calculate_entropy [[(7, 7, 7)]] = 0 := by
  have h := claim_C6_entropy_bounds [[(7, 7, 7)]] (by decide)
  exact ⟨h.1, h.2.1, h.2.2 (7, 7, 7) (by decide)⟩

theorem sqrt_q_eq (q : ℚ) (a : ℝ) (ha : 0 ≤ a) (h : (q : ℝ) = a ^ 2) :
    Real.sqrt (q : ℝ) = a := by
  rw [h]
  exact Real.sqrt_sq ha

theorem convertL_A : convertL [[(0,0,0),(1,1,1),(3,3,3)]] = [[0,1,3]] := by decide

theorem convertL_B : convertL [[(0,0,0),(2,2,2),(3,3,3)]] = [[0,2,3]] := by decide

theorem gxA : grad_x (toQ [[0,1,3]]) = [[(4:ℚ),12,8]] := by
  simp [grad_x, toQ, nrows, ncols, epad, get2, clampIdx, List.range_succ]
  norm_num

theorem gyA : grad_y (toQ [[0,1,3]]) = [[(0:ℚ),0,0]] := by
  simp [grad_y, toQ, nrows, ncols, epad, get2, clampIdx, List.range_succ]

theorem magA : sobelMagnitude (toQ (convertL [[(0,0,0),(1,1,1),(3,3,3)]])) = [[(4:ℝ),12,8]] := by
  rw [convertL_A]
  unfold sobelMagnitude
  rw [gxA, gyA]
  simp only [List.zipWith]
  rw [sqrt_q_eq ((4:ℚ)^2 + (0:ℚ)^2) 4 (by norm_num) (by push_cast; norm_num),
      sqrt_q_eq ((12:ℚ)^2 + (0:ℚ)^2) 12 (by norm_num) (by push_cast; norm_num),
      sqrt_q_eq ((8:ℚ)^2 + (0:ℚ)^2) 8 (by norm_num) (by push_cast; norm_num)]

theorem gxB : grad_x (toQ [[0,2,3]]) = [[(8:ℚ),12,4]] := by
  simp [grad_x, toQ, nrows, ncols, epad, get2, clampIdx, List.range_succ]
  norm_num

theorem gyB : grad_y (toQ [[0,2,3]]) = [[(0:ℚ),0,0]] := by
  simp [grad_y, toQ, nrows, ncols, epad, get2, clampIdx, List.range_succ]

theorem magB : sobelMagnitude (toQ (convertL [[(0,0,0),(2,2,2),(3,3,3)]])) = [[(8:ℝ),12,4]] := by
  rw [convertL_B]
  unfold sobelMagnitude
  rw [gxB, gyB]
  simp only [List.zipWith]
  rw [sqrt_q_eq ((8:ℚ)^2 + (0:ℚ)^2) 8 (by norm_num) (by push_cast; norm_num),
      sqrt_q_eq ((12:ℚ)^2 + (0:ℚ)^2) 12 (by norm_num) (by push_cast; norm_num),
      sqrt_q_eq ((4:ℚ)^2 + (0:ℚ)^2) 4 (by norm_num) (by push_cast; norm_num)]

theorem convertL_R0 : convertL [[(5,5,5)]] = [[5]] := by decide

theorem gxR0 : grad_x (toQ [[5]]) = [[(0:ℚ)]] := by
  simp [grad_x, toQ, nrows, ncols, epad, get2, clampIdx, List.range_succ]

theorem gyR0 : grad_y (toQ [[5]]) = [[(0:ℚ)]] := by
  simp [grad_y, toQ, nrows, ncols, epad, get2, clampIdx, List.range_succ]

theorem magR0 : sobelMagnitude (toQ (convertL [[(5,5,5)]])) = [[(0:ℝ)]] := by
  rw [convertL_R0]
  unfold sobelMagnitude
  rw [gxR0, gyR0]
  simp only [List.zipWith]
  rw [sqrt_q_eq ((0:ℚ)^2 + (0:ℚ)^2) 0 (by norm_num) (by push_cast; norm_num)]

theorem normA : normalize_array [[(4:ℝ),12,8]] = [[0,255,127]] := by
  have hmn : listMin ([[(4:ℝ),12,8]] : List (List ℝ)).flatten = 4 := by
    simp [listMin]
    norm_num [min_def]
  have hmx : listMax ([[(4:ℝ),12,8]] : List (List ℝ)).flatten = 12 := by
    simp [listMax]
    norm_num [max_def]
  simp only [normalize_array]
  rw [hmn, hmx, if_neg (by norm_num)]
  simp only [List.map]
  have f1 : ⌊((4:ℝ) - 4)/(12-4)*255⌋₊ = 0 := by norm_num
  have f2 : ⌊((12:ℝ) - 4)/(12-4)*255⌋₊ = 255 := by
    have h : ((12:ℝ) - 4)/(12-4)*255 = 255 := by norm_num
    rw [h]
    exact_mod_cast Nat.floor_natCast 255
  have f3 : ⌊((8:ℝ) - 4)/(12-4)*255⌋₊ = 127 := by
    have h : ((8:ℝ) - 4)/(12-4)*255 = 127.5 := by norm_num
    rw [h, Nat.floor_eq_iff (by norm_num)]
    norm_num
  rw [f1, f2, f3]

theorem normB : normalize_array [[(8:ℝ),12,4]] = [[127,255,0]] := by
  have hmn : listMin ([[(8:ℝ),12,4]] : List (List ℝ)).flatten = 4 := by
    simp [listMin]
    norm_num [min_def]
  have hmx : listMax ([[(8:ℝ),12,4]] : List (List ℝ)).flatten = 12 := by
    simp [listMax]
    norm_num [max_def]
  simp only [normalize_array]
  rw [hmn, hmx, if_neg (by norm_num)]
  simp only [List.map]
  have f1 : ⌊((8:ℝ) - 4)/(12-4)*255⌋₊ = 127 := by
    have h : ((8:ℝ) - 4)/(12-4)*255 = 127.5 := by norm_num
    rw [h, Nat.floor_eq_iff (by norm_num)]
    norm_num
  have f2 : ⌊((12:ℝ) - 4)/(12-4)*255⌋₊ = 255 := by
    have h : ((12:ℝ) - 4)/(12-4)*255 = 255 := by norm_num
    rw [h]
    exact_mod_cast Nat.floor_natCast 255
  have f3 : ⌊((4:ℝ) - 4)/(12-4)*255⌋₊ = 0 := by norm_num
  rw [f1, f2, f3]

theorem normR0 : normalize_array [[(0:ℝ)]] = [[0]] := by
  simp only [normalize_array]
  rw [if_pos]
  · rfl
  · simp [listMin, listMax]

theorem castA : (([[0,255,127]] : List (List ℕ)).flatten.map (fun (v : ℕ) => (v : ℝ)))
    = [(0:ℝ),255,127] := by
  simp

theorem castB : (([[127,255,0]] : List (List ℕ)).flatten.map (fun (v : ℕ) => (v : ℝ)))
    = [(127:ℝ),255,0] := by
  simp

theorem rvarA : rvar [(0:ℝ),255,127] = 97538/9 := by
  simp [rvar, rmean]
  norm_num

theorem rvarB : rvar [(127:ℝ),255,0] = 97538/9 := by
  simp [rvar, rmean]
  norm_num

theorem rcovAB : rcov [(0:ℝ),255,127] [(127:ℝ),255,0] = 49151/9 := by
  simp [rcov, rmean]
  norm_num

theorem presAB : calculate_edge_preservation [[0,255,127]] [[127,255,0]] = (49151:ℝ)/97538 := by
  simp only [calculate_edge_preservation]
  rw [castA, castB]
  rw [if_neg ?hguard]
  case hguard =>
    simp only [rstd, rvarA, rvarB]
    push_neg
    constructor
    · rw [Real.sqrt_ne_zero']
      norm_num
    · rw [Real.sqrt_ne_zero']
      norm_num
  rw [rcovAB]
  have h1 : rstd [(0:ℝ),255,127] * rstd [(127:ℝ),255,0] = 97538/9 := by
    simp only [rstd, rvarA, rvarB]
    exact Real.mul_self_sqrt (by norm_num)
  rw [h1]
  norm_num

theorem specAB : spec_pearson_or_zero [(4:ℝ),12,8] [(8:ℝ),12,4] = 1/2 := by
  have hv1 : rvar [(4:ℝ),12,8] = 32/3 := by
    simp [rvar, rmean]
    norm_num
  have hv2 : rvar [(8:ℝ),12,4] = 32/3 := by
    simp [rvar, rmean]
    norm_num
  have hc : rcov [(4:ℝ),12,8] [(8:ℝ),12,4] = 16/3 := by
    simp [rcov, rmean]
    norm_num
  simp only [spec_pearson_or_zero]
  rw [if_neg (by rw [hv1, hv2]; push_neg; norm_num)]
  rw [hc]
  have h1 : rstd [(4:ℝ),12,8] * rstd [(8:ℝ),12,4] = 32/3 := by
    simp only [rstd, hv1, hv2]
    exact Real.mul_self_sqrt (by norm_num)
  rw [h1]
  norm_num

theorem presR0 : calculate_edge_preservation [[0]] [[0]] = 0 := by
  simp only [calculate_edge_preservation]
  rw [if_pos]
  left
  simp only [rstd]
  have : rvar (([[0]] : List (List ℕ)).flatten.map (fun (v : ℕ) => (v : ℝ))) = 0 := by
    simp [rvar, rmean]
  rw [this, Real.sqrt_zero]

/-- C2 (amended): for equal-sized rasters, the `preservation_score` of
`analyze_edges` equals the Pearson correlation coefficient (0.0 on zero
variance) between the flattened NORMALIZED (display-normalized, uint8)
gradient-magnitude fields of original and edited — not the unnormalized
fields the claim names. -/
theorem claim_C2_amended (img_orig img_edited : RGBImg)
    (_hsz : imgSize img_orig = imgSize img_edited) :
    (analyze_edges img_orig img_edited).preservation_score
      = spec_pearson_or_zero
          ((normalize_array (sobelMagnitude (toQ (convertL img_orig)))).flatten.map
            (fun (v : ℕ) => (v : ℝ)))
          ((normalize_array (sobelMagnitude (toQ (convertL img_edited)))).flatten.map
            (fun (v : ℕ) => (v : ℝ))) := by
  simp only [analyze_edges, sobel_edge_detection, calculate_edge_preservation,
    spec_pearson_or_zero, rstd_eq_zero_iff]

/-- Counterexample to C2 as stated: for the 1x3 rasters with gray rows
[0,1,3] and [0,2,3], the returned preservation score (49151/97538, computed
on the normalized fields) differs from the Pearson correlation of the
unnormalized magnitude fields (1/2). -/
theorem claim_C2_counterexample :
    (analyze_edges [[(0,0,0),(1,1,1),(3,3,3)]] [[(0,0,0),(2,2,2),(3,3,3)]]).preservation_score
      ≠ spec_pearson_or_zero
          ((sobelMagnitude (toQ (convertL [[(0,0,0),(1,1,1),(3,3,3)]]))).flatten)
          ((sobelMagnitude (toQ (convertL [[(0,0,0),(2,2,2),(3,3,3)]]))).flatten) := by
  have hL : (analyze_edges [[(0,0,0),(1,1,1),(3,3,3)]]
        [[(0,0,0),(2,2,2),(3,3,3)]]).preservation_score = (49151:ℝ)/97538 := by
    simp only [analyze_edges, sobel_edge_detection]
    rw [magA, magB, normA, normB, presAB]
  have hR : spec_pearson_or_zero
      ((sobelMagnitude (toQ (convertL [[(0,0,0),(1,1,1),(3,3,3)]]))).flatten)
      ((sobelMagnitude (toQ (convertL [[(0,0,0),(2,2,2),(3,3,3)]]))).flatten) = 1/2 := by
    rw [magA, magB]
    simp only [List.flatten_cons, List.flatten_nil, List.append_nil]
    exact specAB
  rw [hL, hR]
  norm_num

/-- Witness for C2 (amended) at a concrete equal-sized pair. -/
theorem claim_C2_amended_witness :
    (analyze_edges [[(0,0,0),(1,1,1),(3,3,3)]] [[(0,0,0),(2,2,2),(3,3,3)]]).preservation_score
      = spec_pearson_or_zero
          ((normalize_array (sobelMagnitude (toQ (convertL
            [[(0,0,0),(1,1,1),(3,3,3)]])))).flatten.map (fun (v : ℕ) => (v : ℝ)))
          ((normalize_array (sobelMagnitude (toQ (convertL
            [[(0,0,0),(2,2,2),(3,3,3)]])))).flatten.map (fun (v : ℕ) => (v : ℝ))) :=
  claim_C2_amended _ _ (by decide)

/-- C1 (amended): comparing any raster against itself gives MSE 0,
PSNR +inf, SSIM exactly 1, noise delta 0 and histogram delta score 0;
the edge `preservation_score` is 1.0 whenever the normalized
gradient-magnitude field has nonzero variance (and 0.0 for degenerate,
textureless rasters, by the zero-std sentinel). -/
theorem claim_C1_amended (R : RGBImg) :
    calculate_mse R R = 0
    ∧ calculate_psnr R R = ⊤
    ∧ calculate_ssim R R = 1
    ∧ (rvar (((sobel_edge_detection R).mag_norm).flatten.map (fun (v : ℕ) => (v : ℝ))) ≠ 0 →
        (analyze_edges R R).preservation_score = 1)
    ∧ (rvar (((sobel_edge_detection R).mag_norm).flatten.map (fun (v : ℕ) => (v : ℝ))) = 0 →
        (analyze_edges R R).preservation_score = 0)
    ∧ (analyze_noise R R).noise_delta = 0
    ∧ (analyze_histogram R R).histogram_delta_score = 0 := by
  have hmse : calculate_mse R R = 0 := by
    unfold calculate_mse
    rw [zipWith_self]
    rw [show (rgbFlat R).map (fun x => (x - x)^2) = (rgbFlat R).map (fun _ => (0:ℚ)) from
      List.map_congr_left (fun x _ => by ring)]
    exact qmean_map_zero _
  refine ⟨hmse, ?_, ?_, ?_, ?_, ?_, ?_⟩
  · unfold calculate_psnr
    rw [if_pos hmse]
  · simp only [calculate_ssim, qvar]
    set i := (toQ (convertL R)).flatten with hi
    set A := qmean i with hA
    rw [show List.zipWith (fun a b => (a - A) * (b - A)) i i
        = i.map (fun x => (x - A)^2) from by
      rw [zipWith_self]
      exact List.map_congr_left (fun x _ => (sq _).symm)]
    set B := qmean (i.map (fun x => (x - A)^2)) with hB
    have hBnn : 0 ≤ B := by
      rw [hB]
      refine qmean_nonneg (fun x hx => ?_)
      obtain ⟨y, _, rfl⟩ := List.mem_map.mp hx
      positivity
    have h1 : (0:ℚ) < A^2 + A^2 + (0.01*255:ℚ)^2 := by positivity
    have h2 : (0:ℚ) < B + B + (0.03*255:ℚ)^2 := by nlinarith
    rw [show (2*A*A + (0.01*255:ℚ)^2) * (2*B + (0.03*255:ℚ)^2)
        = (A^2 + A^2 + (0.01*255:ℚ)^2) * (B + B + (0.03*255:ℚ)^2) from by ring]
    exact div_self (ne_of_gt (mul_pos h1 h2))
  · intro h
    simp only [analyze_edges]
    exact edge_preservation_self h
  · intro h
    simp only [analyze_edges]
    exact edge_preservation_self_degenerate h
  · simp only [analyze_noise]
    exact sub_self _
  · simp only [analyze_histogram, calculate_histogram_stats]
    have hz : (∑ c ∈ Finset.range 3, ∑ k ∈ Finset.range 256,
        ((calculate_histogram_hist R c k : ℤ) - (calculate_histogram_hist R c k : ℤ)).natAbs) = 0 :=
      Finset.sum_eq_zero (fun c _ => Finset.sum_eq_zero (fun k _ => by simp))
    rw [hz]
    norm_num

/-- Witness for C1 (amended): a textured raster has preservation score 1
against itself, and a solid-color raster has preservation score 0 against
itself (the zero-std sentinel). -/
theorem claim_C1_amended_witness :
    (analyze_edges [[(0,0,0),(1,1,1),(3,3,3)]]
      [[(0,0,0),(1,1,1),(3,3,3)]]).preservation_score = 1
    ∧ (analyze_edges [[(5,5,5)]] [[(5,5,5)]]).preservation_score = 0 := by
  constructor
  · refine (claim_C1_amended [[(0,0,0),(1,1,1),(3,3,3)]]).2.2.2.1 ?_
    have hm : (sobel_edge_detection [[(0,0,0),(1,1,1),(3,3,3)]]).mag_norm = [[0,255,127]] := by
      simp only [sobel_edge_detection]
      rw [magA, normA]
    rw [hm, castA, rvarA]
    norm_num
  · refine (claim_C1_amended [[(5,5,5)]]).2.2.2.2.1 ?_
    have hm : (sobel_edge_detection [[(5,5,5)]]).mag_norm = [[0]] := by
      simp only [sobel_edge_detection]
      rw [magR0, normR0]
    rw [hm]
    simp [rvar, rmean]

/-- Counterexample to C1 as stated: a solid-color raster compared against
itself has preservation score 0.0, not 1.0. -/
theorem claim_C1_counterexample :
    (analyze_edges [[(5,5,5)]] [[(5,5,5)]]).preservation_score ≠ 1 := by
  have h : (analyze_edges [[(5,5,5)]] [[(5,5,5)]]).preservation_score = 0 := by
    simp only [analyze_edges, sobel_edge_detection]
    rw [magR0, normR0, presR0]
  rw [h]
  norm_num
